import Mathlib

/-!
Shallow embedding of the `AIOracleAggregator` Solidity contract
(`contracts/AIOracleAggregator.sol`): oracle registry, submission ledger,
consensus evaluation (`_tryFinalize`), category classifier
(`_scoreToCategory`), evidence selection (`_pickCid`), pending-task queue,
and admin operations.  Addresses are modelled as `Nat` (0 = the zero
address), `uint8`/`uint256` as `Nat` with explicit `% 256` where a
narrowing cast occurs, mappings as functions, and reverts as
`Except String` carrying the `require` message.
-/

namespace Synergix

/-- One oracle assessment, mirroring `struct Assessment`. -/
structure Assessment where
  oracle : Nat
  score : Nat
  ipfsCid : String
  timestamp : Nat
  deriving Repr, DecidableEq

/-- Sealed verdict for a target, mirroring `struct FinalRisk`. -/
structure FinalRisk where
  aggregatedScore : Nat
  category : Nat
  ipfsCid : String
  timestamp : Nat
  numSubmittingOracles : Nat
  deriving Repr, DecidableEq

/-- The zeroed `FinalRisk` record (`delete finalRisks[target]`). -/
def FinalRisk.zero : FinalRisk := ⟨0, 0, "", 0, 0⟩

/-- Events emitted by the contract. -/
inductive Event where
  | OracleNodeRegistered (oracle : Nat)
  | OracleNodeRemoved (oracle : Nat)
  | TaskRequested (target requester : Nat)
  | AssessmentSubmitted (target oracle score : Nat) (ipfsCid : String)
  | RiskAlertIssued (target aggregatedScore category : Nat) (ipfsCid : String)
      (timestamp numSubmissions : Nat)
  deriving Repr, DecidableEq

/-- Category classifier `_scoreToCategory`: `score <= 30 → 0` (Safe), `score < 70 → 1`
(Caution), else `2` (Danger). -/
def scoreToCategory (score : Nat) : Nat :=
  if score ≤ 30 then 0
  else if score < 70 then 1
  else 2

/-- Value of `catCount[cat]` after the tally loop of `_tryFinalize`: the number of
submissions whose classified score is `c`. -/
def catCount (subs : List Assessment) (c : Nat) : Nat :=
  subs.countP (fun a => scoreToCategory a.score == c)

/-- Value of `totalScore` after the tally loop of `_tryFinalize`. -/
def totalScore (subs : List Assessment) : Nat :=
  (subs.map (fun a => a.score)).sum

/-- The winner-selection loop of `_tryFinalize`: start with
`(winningCat, winningCount) = (0, catCount[0])` and let categories `1`, `2`
take over only on a strictly greater count.  Returns
`(winningCat, winningCount)`. -/
def winning (subs : List Assessment) : Nat × Nat :=
  let w0 : Nat × Nat := (0, catCount subs 0)
  let w1 : Nat × Nat := if catCount subs 1 > w0.2 then (1, catCount subs 1) else w0
  if catCount subs 2 > w1.2 then (2, catCount subs 2) else w1

/-- The scan loop of `_pickCid`: walks the submissions in order carrying
`fallbackCid`; returns the evidence of the first winning-category
submission with non-empty evidence (the `break`), else the carried
fallback (first non-empty evidence overall). -/
def pickCidAux (winningCat : Nat) : List Assessment → String → String
  | [], fallbackCid => fallbackCid
  | a :: rest, fallbackCid =>
    let fb := if a.ipfsCid.length > 0 ∧ fallbackCid.length = 0 then a.ipfsCid else fallbackCid
    if scoreToCategory a.score = winningCat ∧ a.ipfsCid.length > 0 then a.ipfsCid
    else pickCidAux winningCat rest fb

/-- Evidence selector `_pickCid(subs, winningCat)`. -/
def pickCid (subs : List Assessment) (winningCat : Nat) : String :=
  pickCidAux winningCat subs ""

/-- Full contract storage plus the emitted event log. -/
structure ContractState where
  owner : Nat
  isOracle : Nat → Bool
  oracleList : List Nat
  minRequiredSubmissions : Nat
  quorumPercent : Nat
  hasSubmitted : Nat → Nat → Bool
  assessments : Nat → List Assessment
  finalRisks : Nat → FinalRisk
  isFinalized : Nat → Bool
  pendingContracts : List Nat
  isPending : Nat → Bool
  events : List Event

/-- Swap-with-last-and-pop removal: the loop pattern used by
`removeOracle` and `_removePending`.  Finds the first occurrence of `x`,
overwrites it with the last element and pops the last slot; a list not
containing `x` is returned unchanged. -/
def swapRemove (l : List Nat) (x : Nat) : List Nat :=
  let i := l.indexOf x
  if i < l.length then (l.set i (l.getLastD 0)).dropLast else l

/-- Pending-queue removal `_removePending(target)`. -/
def removePending (s : ContractState) (target : Nat) : ContractState :=
  if s.isPending target = false then s
  else
    { s with
      pendingContracts := swapRemove s.pendingContracts target
      isPending := fun t => if t = target then false else s.isPending t }

/-- Consensus evaluator `_tryFinalize(target)`; `time` stands for `block.timestamp`.  The
`uint8` narrowing cast on the average is the explicit `% 256`. -/
def tryFinalize (s : ContractState) (target : Nat) (time : Nat) : ContractState :=
  let subs := s.assessments target
  let n := subs.length
  if n < s.minRequiredSubmissions then s
  else
    let w := winning subs
    if w.2 * 100 ≥ s.quorumPercent * n then
      let avgScore := (totalScore subs / n) % 256
      let chosenCid := pickCid subs w.1
      let s' :=
        { s with
          finalRisks := fun t =>
            if t = target then ⟨avgScore, w.1, chosenCid, time, n⟩ else s.finalRisks t
          isFinalized := fun t => if t = target then true else s.isFinalized t }
      let s'' := removePending s' target
      { s'' with
        events := s''.events ++
          [Event.RiskAlertIssued target avgScore w.1 chosenCid time n] }
    else s

/-- Submission entry point `submitAssessment(target, score, ipfsCid)` by `sender` at
`block.timestamp = time`. -/
def submitAssessment (s : ContractState) (sender target score : Nat)
    (ipfsCid : String) (time : Nat) : Except String ContractState :=
  if s.isOracle sender = false then .error "Only whitelisted oracle"
  else if target = 0 then .error "invalid target"
  else if ¬ score ≤ 100 then .error "score 0..100"
  else if s.isFinalized target then .error "finalized"
  else if s.hasSubmitted target sender then .error "already submitted"
  else
    let s' :=
      { s with
        hasSubmitted := fun t o =>
          if t = target ∧ o = sender then true else s.hasSubmitted t o
        assessments := fun t =>
          if t = target then s.assessments t ++ [⟨sender, score, ipfsCid, time⟩]
          else s.assessments t
        events := s.events ++ [Event.AssessmentSubmitted target sender score ipfsCid] }
    if (s'.assessments target).length ≥ s'.minRequiredSubmissions then
      .ok (tryFinalize s' target time)
    else .ok s'

/-- Registry operation `registerOracle(oracle)` called by `sender`. -/
def registerOracle (s : ContractState) (sender oracle : Nat) :
    Except String ContractState :=
  if ¬ sender = s.owner then .error "Only owner"
  else if oracle = 0 then .error "zero address"
  else if s.isOracle oracle then .error "already oracle"
  else
    .ok { s with
      isOracle := fun o => if o = oracle then true else s.isOracle o
      oracleList := s.oracleList ++ [oracle]
      events := s.events ++ [Event.OracleNodeRegistered oracle] }

/-- Registry operation `removeOracle(oracle)` called by `sender`. -/
def removeOracle (s : ContractState) (sender oracle : Nat) :
    Except String ContractState :=
  if ¬ sender = s.owner then .error "Only owner"
  else if s.isOracle oracle = false then .error "not oracle"
  else
    .ok { s with
      isOracle := fun o => if o = oracle then false else s.isOracle o
      oracleList := swapRemove s.oracleList oracle
      events := s.events ++ [Event.OracleNodeRemoved oracle] }

/-- Parameter setter `setConsensusParams(_minRequiredSubmissions, _quorumPercent)`. -/
def setConsensusParams (s : ContractState) (sender minReq quorum : Nat) :
    Except String ContractState :=
  if ¬ sender = s.owner then .error "Only owner"
  else if ¬ minReq ≥ 1 then .error "min submissions >=1"
  else if ¬ (quorum ≥ 1 ∧ quorum ≤ 100) then .error "quorum 1..100"
  else .ok { s with minRequiredSubmissions := minReq, quorumPercent := quorum }

/-- Pending-queue operation `requestAssessment(target)` called by `sender`. -/
def requestAssessment (s : ContractState) (sender target : Nat) :
    Except String ContractState :=
  if target = 0 then .error "invalid target"
  else if s.isFinalized target then .error "already finalized"
  else if s.isPending target = false then
    .ok { s with
      isPending := fun t => if t = target then true else s.isPending t
      pendingContracts := s.pendingContracts ++ [target]
      events := s.events ++ [Event.TaskRequested target sender] }
  else .ok s

/-- Admin operation `adminResetTarget(target)` called by `sender`. -/
def adminResetTarget (s : ContractState) (sender target : Nat) :
    Except String ContractState :=
  if ¬ sender = s.owner then .error "Only owner"
  else
    let s' :=
      { s with
        hasSubmitted := fun t o =>
          if t = target ∧ ((s.assessments target).map (fun a => a.oracle)).contains o
          then false else s.hasSubmitted t o
        assessments := fun t => if t = target then [] else s.assessments t
        finalRisks := fun t => if t = target then FinalRisk.zero else s.finalRisks t
        isFinalized := fun t => if t = target then false else s.isFinalized t }
    .ok (removePending s' target)

/-- Admin operation `transferOwnership(newOwner)` called by `sender`. -/
def transferOwnership (s : ContractState) (sender newOwner : Nat) :
    Except String ContractState :=
  if ¬ sender = s.owner then .error "Only owner"
  else if newOwner = 0 then .error "zero"
  else .ok { s with owner := newOwner }

/-- The constructor's oracle-registration loop over `initialOracles`:
zero addresses and already-registered addresses are silently skipped. -/
def initOracles (s : ContractState) (initialOracles : List Nat) : ContractState :=
  initialOracles.foldl
    (fun st o =>
      if o ≠ 0 ∧ st.isOracle o = false then
        { st with
          isOracle := fun a => if a = o then true else st.isOracle a
          oracleList := st.oracleList ++ [o]
          events := st.events ++ [Event.OracleNodeRegistered o] }
      else st)
    s

/-- Contract constructor deployed by `sender` with arguments
`(initialOracles, _minRequiredSubmissions, _quorumPercent)`.  Field defaults `minRequiredSubmissions = 3` and
`quorumPercent = 66` apply when the respective argument is zero. -/
def deploy (sender : Nat) (initialOracles : List Nat) (minReq quorum : Nat) :
    Except String ContractState :=
  if quorum > 0 ∧ ¬ quorum ≤ 100 then .error "quorumPercent max 100"
  else
    .ok (initOracles
      { owner := sender
        isOracle := fun _ => false
        oracleList := []
        minRequiredSubmissions := if minReq > 0 then minReq else 3
        quorumPercent := if quorum > 0 then quorum else 66
        hasSubmitted := fun _ _ => false
        assessments := fun _ => []
        finalRisks := fun _ => FinalRisk.zero
        isFinalized := fun _ => false
        pendingContracts := []
        isPending := fun _ => false
        events := [] }
      initialOracles)

/-! ### Concrete scenarios used in the theorems -/

/-- The submission list of the spec's quorum-arithmetic example:
scores 85 (Danger), 75 (Danger), 10 (Safe). -/
def dangerSubs : List Assessment :=
  [⟨1, 85, "ipfs-danger-a", 11⟩, ⟨2, 75, "ipfs-danger-b", 12⟩,
   ⟨3, 10, "ipfs-safe-c", 13⟩]

/-- Deploy with min 3 / quorum 66 and run the three submissions of the
quorum-arithmetic example against target 500. -/
def dangerScenario : Except String ContractState :=
  (deploy 100 [1, 2, 3] 3 66).bind fun s0 =>
    (submitAssessment s0 1 500 85 "ipfs-danger-a" 11).bind fun s1 =>
      (submitAssessment s1 2 500 75 "ipfs-danger-b" 12).bind fun s2 =>
        submitAssessment s2 3 500 10 "ipfs-safe-c" 13

/-- Deploy with min 2 / quorum 50 and run the two submissions of the
spec's tie-break example (scores 20 and 80) against target 500. -/
def tieScenario : Except String ContractState :=
  (deploy 100 [1, 2] 2 50).bind fun s0 =>
    (submitAssessment s0 1 500 20 "" 1).bind fun s1 =>
      submitAssessment s1 2 500 80 "" 2

/-- Error message of a call result (empty string on success). -/
def errOf (r : Except String ContractState) : String :=
  match r with
  | .error e => e
  | .ok _ => ""

/-- A freshly deployed state with no oracles and default parameters. -/
def baseState : ContractState :=
  ⟨100, fun _ => false, [], 3, 66, fun _ _ => false, fun _ => [],
   fun _ => FinalRisk.zero, fun _ => false, [], fun _ => false, []⟩

/-- A state whose target 500 holds the three example submissions but is
not yet finalized; oracle 1 is authorized. -/
def preFinalState : ContractState :=
  { baseState with
    isOracle := fun o => o == 1
    assessments := fun t => if t = 500 then dangerSubs else [] }

/-- Apply `f` to the state of a successful call result, or return `dflt`
on a revert. -/
def okMap {α : Type} (r : Except String ContractState) (dflt : α)
    (f : ContractState → α) : α :=
  match r with
  | .ok s => f s
  | .error _ => dflt

/-- Evidence selector as the specification words it: the first
winning-category submission with non-empty evidence; otherwise the first
non-empty evidence of any submission; otherwise the empty pointer. -/
def pickCidSpec (subs : List Assessment) (winningCat : Nat) : String :=
  match subs.find? (fun a =>
      scoreToCategory a.score == winningCat && decide (0 < a.ipfsCid.length)) with
  | some a => a.ipfsCid
  | none =>
    match subs.find? (fun a => decide (0 < a.ipfsCid.length)) with
    | some a => a.ipfsCid
    | none => ""

/-- A state whose target 500 is already finalized; oracle 1 is
authorized. -/
def finalState : ContractState :=
  { preFinalState with isFinalized := fun t => t == 500 }

/-- States reachable from a deployment through the contract's external
entry points. -/
inductive Reachable : ContractState → Prop where
  | deployed (sender : Nat) (l : List Nat) (m q : Nat) (s : ContractState) :
      deploy sender l m q = .ok s → Reachable s
  | registered (s s' : ContractState) (x y : Nat) (h : Reachable s)
      (hop : registerOracle s x y = .ok s') : Reachable s'
  | removed (s s' : ContractState) (x y : Nat) (h : Reachable s)
      (hop : removeOracle s x y = .ok s') : Reachable s'
  | paramsSet (s s' : ContractState) (x a b : Nat) (h : Reachable s)
      (hop : setConsensusParams s x a b = .ok s') : Reachable s'
  | requested (s s' : ContractState) (x t : Nat) (h : Reachable s)
      (hop : requestAssessment s x t = .ok s') : Reachable s'
  | submitted (s s' : ContractState) (x t sc : Nat) (cid : String) (tm : Nat)
      (h : Reachable s)
      (hop : submitAssessment s x t sc cid tm = .ok s') : Reachable s'
  | reset (s s' : ContractState) (x t : Nat) (h : Reachable s)
      (hop : adminResetTarget s x t = .ok s') : Reachable s'
  | transferred (s s' : ContractState) (x t : Nat) (h : Reachable s)
      (hop : transferOwnership s x t = .ok s') : Reachable s'

/-- Deploy and call `requestAssessment(500)` twice from the same
caller 9. -/
def requestTwice : Except String ContractState :=
  (deploy 100 [] 3 66).bind fun s0 =>
    (requestAssessment s0 9 500).bind fun s1 =>
      requestAssessment s1 9 500

/-! ### Frame lemmas for the internal helpers -/

theorem removePending_isFinalized (s : ContractState) (target : Nat) :
    (removePending s target).isFinalized = s.isFinalized := by
  unfold removePending; split <;> rfl

theorem removePending_finalRisks (s : ContractState) (target : Nat) :
    (removePending s target).finalRisks = s.finalRisks := by
  unfold removePending; split <;> rfl

theorem removePending_assessments (s : ContractState) (target : Nat) :
    (removePending s target).assessments = s.assessments := by
  unfold removePending; split <;> rfl

theorem removePending_hasSubmitted (s : ContractState) (target : Nat) :
    (removePending s target).hasSubmitted = s.hasSubmitted := by
  unfold removePending; split <;> rfl

theorem removePending_isOracle (s : ContractState) (target : Nat) :
    (removePending s target).isOracle = s.isOracle := by
  unfold removePending; split <;> rfl

theorem removePending_owner (s : ContractState) (target : Nat) :
    (removePending s target).owner = s.owner := by
  unfold removePending; split <;> rfl

theorem removePending_params (s : ContractState) (target : Nat) :
    (removePending s target).minRequiredSubmissions = s.minRequiredSubmissions ∧
      (removePending s target).quorumPercent = s.quorumPercent := by
  unfold removePending; split <;> exact ⟨rfl, rfl⟩

theorem removePending_isPending_self (s : ContractState) (target : Nat) :
    (s.isPending target = false → removePending s target = s) ∧
      (removePending s target).isPending target = false := by
  unfold removePending
  split
  · next h => exact ⟨fun _ => rfl, by simpa using h⟩
  · exact ⟨fun h' => absurd h' (by simp_all), by simp⟩

theorem tryFinalize_isFinalized_ne (s : ContractState) (target time t : Nat)
    (ht : t ≠ target) :
    (tryFinalize s target time).isFinalized t = s.isFinalized t := by
  unfold tryFinalize
  dsimp only
  split
  · rfl
  · split
    · simp [removePending_isFinalized, ht]
    · rfl

theorem tryFinalize_finalRisks_ne (s : ContractState) (target time t : Nat)
    (ht : t ≠ target) :
    (tryFinalize s target time).finalRisks t = s.finalRisks t := by
  unfold tryFinalize
  dsimp only
  split
  · rfl
  · split
    · simp [removePending_finalRisks, ht]
    · rfl

theorem tryFinalize_params (s : ContractState) (target time : Nat) :
    (tryFinalize s target time).minRequiredSubmissions = s.minRequiredSubmissions ∧
      (tryFinalize s target time).quorumPercent = s.quorumPercent := by
  unfold tryFinalize
  dsimp only
  split
  · exact ⟨rfl, rfl⟩
  · split
    · exact ⟨((removePending_params _ _).1 : _), ((removePending_params _ _).2 : _)⟩
    · exact ⟨rfl, rfl⟩

theorem submit_fails_of_finalized (s : ContractState) (target : Nat)
    (hf : s.isFinalized target = true) :
    ∀ sender sc cid t2, ∃ e,
      submitAssessment s sender target sc cid t2 = Except.error e := by
  intro sender sc cid t2
  unfold submitAssessment
  split_ifs <;> first | exact ⟨_, rfl⟩ | simp_all

theorem tryFinalize_seals (s : ContractState) (target time : Nat)
    (h1 : ¬ (s.assessments target).length < s.minRequiredSubmissions)
    (hq : (winning (s.assessments target)).2 * 100 ≥
      s.quorumPercent * (s.assessments target).length) :
    (tryFinalize s target time).finalRisks target =
      ⟨(totalScore (s.assessments target) / (s.assessments target).length) % 256,
       (winning (s.assessments target)).1,
       pickCid (s.assessments target) (winning (s.assessments target)).1,
       time, (s.assessments target).length⟩ ∧
    (tryFinalize s target time).isFinalized target = true := by
  unfold tryFinalize
  dsimp only
  rw [if_neg h1, if_pos hq]
  constructor
  · simp [removePending_finalRisks]
  · simp [removePending_isFinalized]

theorem quorum_of_finalized (s : ContractState) (target time : Nat)
    (hf : s.isFinalized target = false)
    (hfin : (tryFinalize s target time).isFinalized target = true) :
    ¬ (s.assessments target).length < s.minRequiredSubmissions ∧
    (winning (s.assessments target)).2 * 100 ≥
      s.quorumPercent * (s.assessments target).length := by
  unfold tryFinalize at hfin
  dsimp only at hfin
  split_ifs at hfin with h1 hq
  · rw [hf] at hfin; cases hfin
  · exact ⟨h1, hq⟩
  · rw [hf] at hfin; cases hfin

theorem totalScore_le (subs : List Assessment)
    (h : ∀ a ∈ subs, a.score ≤ 100) :
    totalScore subs ≤ 100 * subs.length := by
  induction subs with
  | nil => simp [totalScore]
  | cons a rest ih =>
    have ha := h a (by simp)
    have hr : totalScore rest ≤ 100 * rest.length :=
      ih (fun b hb => h b (by simp [hb]))
    simp only [totalScore, List.map_cons, List.sum_cons, List.length_cons] at *
    omega

theorem totalScore_div_le (subs : List Assessment)
    (h : ∀ a ∈ subs, a.score ≤ 100) :
    totalScore subs / subs.length ≤ 100 := by
  rcases Nat.eq_zero_or_pos subs.length with h0 | hpos
  · rw [h0, Nat.div_zero]; omega
  · calc totalScore subs / subs.length
        ≤ 100 * subs.length / subs.length :=
          Nat.div_le_div_right (totalScore_le _ h)
      _ = 100 := Nat.mul_div_cancel 100 hpos

/-! ### Claim theorems -/

/-- C4: for every score in `[0,100]`, `_scoreToCategory` returns Safe (0)
exactly when the score is at most 30, Caution (1) exactly when it lies
strictly between 30 and 70, Danger (2) exactly when it is at least 70,
and the boundary scores 30, 31, 69, 70 map to Safe, Caution, Caution,
Danger respectively. -/
theorem classifier_boundaries (s : Nat) (hs : s ≤ 100) :
    (scoreToCategory s = 0 ↔ s ≤ 30) ∧
    (scoreToCategory s = 1 ↔ 30 < s ∧ s < 70) ∧
    (scoreToCategory s = 2 ↔ 70 ≤ s) ∧
    scoreToCategory 30 = 0 ∧ scoreToCategory 31 = 1 ∧
    scoreToCategory 69 = 1 ∧ scoreToCategory 70 = 2 := by
  refine ⟨?_, ?_, ?_, by decide, by decide, by decide, by decide⟩ <;>
    (unfold scoreToCategory; split_ifs <;> constructor <;> intro h <;>
      first | omega | simp_all)

/-- Witness for C4 at score 31. -/
theorem classifier_boundaries_witness :
    (scoreToCategory 31 = 0 ↔ 31 ≤ 30) ∧
    (scoreToCategory 31 = 1 ↔ 30 < 31 ∧ 31 < 70) ∧
    (scoreToCategory 31 = 2 ↔ 70 ≤ 31) ∧
    scoreToCategory 30 = 0 ∧ scoreToCategory 31 = 1 ∧
    scoreToCategory 69 = 1 ∧ scoreToCategory 70 = 2 :=
  classifier_boundaries 31 (by decide)

/-- C2: for every non-empty submission list, the pair selected by the
winner loop of `_tryFinalize` is a category achieving the maximal vote
count, and every lower-numbered category has a strictly smaller count
(the lowest-numbered category wins ties, since only strictly greater
counts replace the current winner); and in the spec's tie-break example
(min 2, quorum 50, scores 20 and 80) the tally ties 1–1, Safe (0) wins,
and the target finalizes with category Safe. -/
theorem majority_lowest_tie_break (subs : List Assessment) (hne : subs ≠ []) :
    (catCount subs (winning subs).1 = (winning subs).2 ∧
     (∀ c, c < 3 → catCount subs c ≤ (winning subs).2) ∧
     (∀ c, c < (winning subs).1 → catCount subs c < (winning subs).2)) ∧
    winning [⟨1, 20, "", 1⟩, ⟨2, 80, "", 2⟩] = (0, 1) ∧
    okMap tieScenario (false, 99) (fun st =>
      (st.isFinalized 500, (st.finalRisks 500).category)) = (true, 0) := by
  refine ⟨?_, by decide, by decide⟩
  unfold winning
  dsimp only
  split_ifs with h1 h2 h2 <;>
    refine ⟨rfl, ?_, ?_⟩ <;> (intro c hc; interval_cases c <;> omega)

/-- Witness for C2 at the quorum-example submission list. -/
theorem majority_lowest_tie_break_witness :
    (catCount dangerSubs (winning dangerSubs).1 = (winning dangerSubs).2 ∧
     (∀ c, c < 3 → catCount dangerSubs c ≤ (winning dangerSubs).2) ∧
     (∀ c, c < (winning dangerSubs).1 → catCount dangerSubs c < (winning dangerSubs).2)) ∧
    winning [⟨1, 20, "", 1⟩, ⟨2, 80, "", 2⟩] = (0, 1) ∧
    okMap tieScenario (false, 99) (fun st =>
      (st.isFinalized 500, (st.finalRisks 500).category)) = (true, 0) :=
  majority_lowest_tie_break dangerSubs (by decide)

/-- C1: for a target whose recorded submission count `n` is at least
`minRequiredSubmissions` and which is not yet finalized, `_tryFinalize`
seals a Final Verdict if and only if the winning vote count times 100 is
at least `quorumPercent * n` (exact integer comparison); and in the
spec's example (quorum 66, scores 85, 75, 10) Danger wins with 2 votes,
`200 ≥ 198`, and the target finalizes with category Danger (2). -/
theorem quorum_iff_finalize (s : ContractState) (target time : Nat)
    (hn : s.minRequiredSubmissions ≤ (s.assessments target).length)
    (hf : s.isFinalized target = false) :
    ((tryFinalize s target time).isFinalized target = true ↔
      (winning (s.assessments target)).2 * 100 ≥
        s.quorumPercent * (s.assessments target).length) ∧
    winning dangerSubs = (2, 2) ∧
    2 * 100 ≥ 66 * 3 ∧
    okMap dangerScenario (false, 99, 0) (fun st =>
      (st.isFinalized 500, (st.finalRisks 500).category,
       (st.finalRisks 500).numSubmittingOracles)) = (true, 2, 3) := by
  refine ⟨⟨fun hfin => (quorum_of_finalized s target time hf hfin).2,
      fun hq => (tryFinalize_seals s target time (by omega) hq).2⟩,
    by decide, by decide, by decide⟩

/-- Witness for C1 at a state holding the three example submissions. -/
theorem quorum_iff_finalize_witness :
    ((tryFinalize preFinalState 500 99).isFinalized 500 = true ↔
      (winning (preFinalState.assessments 500)).2 * 100 ≥
        preFinalState.quorumPercent * (preFinalState.assessments 500).length) ∧
    winning dangerSubs = (2, 2) ∧
    2 * 100 ≥ 66 * 3 ∧
    okMap dangerScenario (false, 99, 0) (fun st =>
      (st.isFinalized 500, (st.finalRisks 500).category,
       (st.finalRisks 500).numSubmittingOracles)) = (true, 2, 3) :=
  quorum_iff_finalize preFinalState 500 99 (by decide) (by decide)

/-- C3: whenever `_tryFinalize` seals a verdict over the recorded
submissions, the stored aggregated score is the floor integer division of
the raw-score sum by the count, it lies within `[0,100]` because every
individual score does, the stored count is the submission count at
sealing time, and every later submission for the target reverts — so the
score is computed once and never recomputed. -/
theorem aggregated_score_floor (s : ContractState) (target time : Nat)
    (hsc : ∀ a ∈ s.assessments target, a.score ≤ 100)
    (hf : s.isFinalized target = false)
    (hfin : (tryFinalize s target time).isFinalized target = true) :
    ((tryFinalize s target time).finalRisks target).aggregatedScore
        = totalScore (s.assessments target) / (s.assessments target).length ∧
    ((tryFinalize s target time).finalRisks target).aggregatedScore ≤ 100 ∧
    ((tryFinalize s target time).finalRisks target).numSubmittingOracles
        = (s.assessments target).length ∧
    (∀ sender sc cid t2, ∃ e,
      submitAssessment (tryFinalize s target time) sender target sc cid t2
        = Except.error e) := by
  obtain ⟨h1, hq⟩ := quorum_of_finalized s target time hf hfin
  obtain ⟨hseal, -⟩ := tryFinalize_seals s target time h1 hq
  have hdiv := totalScore_div_le _ hsc
  have hmod : (totalScore (s.assessments target) / (s.assessments target).length) % 256
      = totalScore (s.assessments target) / (s.assessments target).length :=
    Nat.mod_eq_of_lt (by omega)
  rw [hseal]
  exact ⟨by simp [hmod], by simp [hmod]; omega, rfl,
    fun sender sc cid t2 => submit_fails_of_finalized _ _ hfin sender sc cid t2⟩

/-- Witness for C3 at a state holding the three example submissions. -/
theorem aggregated_score_floor_witness :
    ((tryFinalize preFinalState 500 99).finalRisks 500).aggregatedScore
        = totalScore (preFinalState.assessments 500) / (preFinalState.assessments 500).length ∧
    ((tryFinalize preFinalState 500 99).finalRisks 500).aggregatedScore ≤ 100 ∧
    ((tryFinalize preFinalState 500 99).finalRisks 500).numSubmittingOracles
        = (preFinalState.assessments 500).length ∧
    (∀ sender sc cid t2, ∃ e,
      submitAssessment (tryFinalize preFinalState 500 99) sender 500 sc cid t2
        = Except.error e) :=
  aggregated_score_floor preFinalState 500 99 (by decide) (by decide) (by decide)

theorem pickCidAux_of_nonempty (w : Nat) (subs : List Assessment) :
    ∀ fb : String, 0 < fb.length →
    pickCidAux w subs fb =
      match subs.find? (fun a =>
          scoreToCategory a.score == w && decide (0 < a.ipfsCid.length)) with
      | some a => a.ipfsCid
      | none => fb := by
  induction subs with
  | nil => intro fb hfb; rfl
  | cons a rest ih =>
    intro fb hfb
    by_cases hc : scoreToCategory a.score = w ∧ a.ipfsCid.length > 0
    · rw [List.find?_cons_of_pos _ (by simp [hc.1, hc.2])]
      simp only [pickCidAux]
      rw [if_pos hc]
    · rw [List.find?_cons_of_neg _ (by simp; omega)]
      simp only [pickCidAux]
      rw [if_neg hc]
      have hfb' : (if a.ipfsCid.length > 0 ∧ fb.length = 0
          then a.ipfsCid else fb) = fb := by
        split_ifs with h
        · omega
        · rfl
      rw [hfb', ih fb hfb]

/-- C5: the evidence selector `_pickCid` returns the evidence pointer of
the first submission (in insertion order) whose classified category
equals the winning category and whose evidence is non-empty; failing
that, the first non-empty evidence pointer of any submission; and the
empty pointer when every submission's evidence is empty — i.e. it
coincides with the selector the specification describes. -/
theorem evidence_selector_first_match (subs : List Assessment) (w : Nat) :
    pickCid subs w = pickCidSpec subs w := by
  unfold pickCid pickCidSpec
  induction subs with
  | nil => rfl
  | cons a rest ih =>
    by_cases hc : scoreToCategory a.score = w ∧ a.ipfsCid.length > 0
    · rw [List.find?_cons_of_pos _ (by simp [hc.1, hc.2])]
      simp only [pickCidAux]
      rw [if_pos hc]
    · rw [List.find?_cons_of_neg _ (by simp; omega)]
      simp only [pickCidAux]
      rw [if_neg hc]
      by_cases ha : 0 < a.ipfsCid.length
      · rw [List.find?_cons_of_pos _ (by simp [ha])]
        rw [show (if a.ipfsCid.length > 0 ∧ ("" : String).length = 0
            then a.ipfsCid else "") = a.ipfsCid by simp [ha]]
        rw [pickCidAux_of_nonempty w rest a.ipfsCid ha]
      · rw [List.find?_cons_of_neg _ (by simp; omega)]
        rw [show (if a.ipfsCid.length > 0 ∧ ("" : String).length = 0
            then a.ipfsCid else "") = "" by simp; omega]
        exact ih

/-- C9 counterexample: after two `requestAssessment` calls for the same
fresh target there is exactly one pending entry, but only ONE
task-requested event was emitted — the second call emits none, contrary
to the claim that the event fires on every call. -/
theorem request_event_counterexample :
    okMap requestTwice ([], 99) (fun s2 =>
      (s2.pendingContracts, s2.events.count (Event.TaskRequested 500 9)))
      = ([500], 1) := by decide

/-- C9 (amended): for every non-finalized, non-null target not yet
pending, a `requestAssessment` call adds exactly one pending entry and
emits one task-requested event; every repeated call for the
already-pending target returns the state completely unchanged — a silent
no-op that emits NO further event (the event fires only on the first
call). -/
theorem request_idempotent (s : ContractState) (sender sender2 target : Nat)
    (ht : target ≠ 0) (hf : s.isFinalized target = false)
    (hp : s.isPending target = false) (hm : target ∉ s.pendingContracts) :
    ∃ s1, requestAssessment s sender target = .ok s1 ∧
      s1.pendingContracts.count target = 1 ∧
      s1.events = s.events ++ [Event.TaskRequested target sender] ∧
      requestAssessment s1 sender2 target = .ok s1 := by
  refine ⟨{ s with
      isPending := fun t => if t = target then true else s.isPending t
      pendingContracts := s.pendingContracts ++ [target]
      events := s.events ++ [Event.TaskRequested target sender] }, ?_, ?_, ?_, ?_⟩
  · unfold requestAssessment
    rw [if_neg ht, if_neg (by simp [hf]), if_pos hp]
  · simp [List.count_append]
    exact List.count_eq_zero.mpr hm
  · rfl
  · unfold requestAssessment
    rw [if_neg ht, if_neg (by simp [hf]), if_neg (by simp)]

/-- Witness for the amended C9 at the fresh deployment state. -/
theorem request_idempotent_witness :
    ∃ s1, requestAssessment baseState 9 500 = .ok s1 ∧
      s1.pendingContracts.count 500 = 1 ∧
      s1.events = baseState.events ++ [Event.TaskRequested 500 9] ∧
      requestAssessment s1 10 500 = .ok s1 :=
  request_idempotent baseState 9 10 500 (by decide) (by decide) (by decide)
    (by decide)

/-- C8: `removeOracle` clears only the reporter's authorization flag and
its `oracleList` entry (swap-with-last-and-pop); assessments and the
permanent has-submitted markers are untouched, so after re-registration
the reporter still cannot submit a second assessment for a target it
already assessed. -/
theorem remove_oracle_keeps_history (s : ContractState) (oracle : Nat)
    (hor : s.isOracle oracle = true) :
    ∃ s', removeOracle s s.owner oracle = .ok s' ∧
      s'.isOracle oracle = false ∧
      s'.oracleList = swapRemove s.oracleList oracle ∧
      (∀ o, o ≠ oracle → s'.isOracle o = s.isOracle o) ∧
      s'.assessments = s.assessments ∧
      s'.hasSubmitted = s.hasSubmitted ∧
      s'.finalRisks = s.finalRisks ∧
      s'.isFinalized = s.isFinalized ∧
      (∀ s'' target score cid time,
        registerOracle s' s'.owner oracle = .ok s'' →
        s.hasSubmitted target oracle = true →
        target ≠ 0 → score ≤ 100 → s.isFinalized target = false →
        submitAssessment s'' oracle target score cid time
          = .error "already submitted") := by
  refine ⟨{ s with
      isOracle := fun o => if o = oracle then false else s.isOracle o
      oracleList := swapRemove s.oracleList oracle
      events := s.events ++ [Event.OracleNodeRemoved oracle] }, ?_, by simp,
    rfl, ?_, rfl, rfl, rfl, rfl, ?_⟩
  · unfold removeOracle
    rw [if_neg (by simp), if_neg (by simp [hor])]
  · intro o ho
    simp [ho]
  · intro s'' target score cid time hreg hsubm ht hsc hf
    unfold registerOracle at hreg
    split_ifs at hreg <;>
      first
        | exact Except.noConfusion hreg
        | (simp only [Except.ok.injEq] at hreg
           subst hreg
           unfold submitAssessment
           rw [if_neg (by simp), if_neg ht, if_neg (by simp [hsc]),
             if_neg (by simp [hf]), if_pos (by simp [hsubm])])

/-- Witness for C8 removing oracle 1 from the example state. -/
theorem remove_oracle_keeps_history_witness :
    ∃ s', removeOracle preFinalState preFinalState.owner 1 = .ok s' ∧
      s'.isOracle 1 = false ∧
      s'.oracleList = swapRemove preFinalState.oracleList 1 ∧
      (∀ o, o ≠ 1 → s'.isOracle o = preFinalState.isOracle o) ∧
      s'.assessments = preFinalState.assessments ∧
      s'.hasSubmitted = preFinalState.hasSubmitted ∧
      s'.finalRisks = preFinalState.finalRisks ∧
      s'.isFinalized = preFinalState.isFinalized ∧
      (∀ s'' target score cid time,
        registerOracle s' s'.owner 1 = .ok s'' →
        preFinalState.hasSubmitted target 1 = true →
        target ≠ 0 → score ≤ 100 → preFinalState.isFinalized target = false →
        submitAssessment s'' 1 target score cid time
          = .error "already submitted") :=
  remove_oracle_keeps_history preFinalState 1 (by decide)

theorem not_mem_swapRemove_self (l : List Nat) (x : Nat) (hnd : l.Nodup) :
    x ∉ swapRemove l x := by
  unfold swapRemove
  dsimp only
  split_ifs with hi
  · intro hmem
    have hne : l ≠ [] := by
      intro he; rw [he] at hi; simp [List.indexOf] at hi
    have hl0 : l.length - 1 < l.length := by omega
    have hlast : l.getLastD 0 = l[l.length - 1] := by
      rw [List.getLastD_eq_getLast?, List.getLast?_eq_getLast _ hne]
      simp [List.getLast_eq_getElem]
    rw [List.mem_iff_getElem] at hmem
    obtain ⟨j, hj, hx⟩ := hmem
    have hj' : j < l.length - 1 := by
      simpa [List.length_dropLast, List.length_set] using hj
    rw [List.getElem_dropLast, List.getElem_set] at hx
    have hidx : l[l.indexOf x] = x := by
      simpa using List.indexOf_get hi
    by_cases hji : l.indexOf x = j
    · rw [if_pos hji, hlast] at hx
      have : l.length - 1 = l.indexOf x :=
        (List.Nodup.getElem_inj_iff hnd).mp (hx.trans hidx.symm)
      omega
    · rw [if_neg hji] at hx
      have : j = l.indexOf x :=
        (List.Nodup.getElem_inj_iff hnd).mp (hx.trans hidx.symm)
      omega
  · intro hmem
    exact hi (List.indexOf_lt_length.mpr hmem)

theorem submit_succeeds (s : ContractState) (sender target score : Nat)
    (cid : String) (time : Nat)
    (ho : s.isOracle sender = true) (ht : target ≠ 0) (hsc : score ≤ 100)
    (hf : s.isFinalized target = false)
    (hdup : s.hasSubmitted target sender = false) :
    ∃ s'', submitAssessment s sender target score cid time = .ok s'' := by
  unfold submitAssessment
  rw [if_neg (by simp [ho]), if_neg ht, if_neg (by simp [hsc]),
    if_neg (by simp [hf]), if_neg (by simp [hdup])]
  dsimp only
  split_ifs <;> first | exact ⟨_, rfl⟩ | simp_all

/-- C7: after an owner call of `adminResetTarget(target)` the target's
submission list is empty, the finalized flag is cleared, the Final
Verdict record is zeroed, the duplicate-submission marker of every
reporter that had submitted for the target is cleared (so any currently
authorized reporter may submit again), and the target is no longer in
the pending queue. -/
theorem admin_reset_clears (s : ContractState) (target : Nat)
    (hnd : s.pendingContracts.Nodup)
    (hpm : target ∈ s.pendingContracts → s.isPending target = true)
    (hsub : ∀ o, s.hasSubmitted target o = true →
      o ∈ (s.assessments target).map (fun a => a.oracle)) :
    ∃ s', adminResetTarget s s.owner target = .ok s' ∧
      s'.assessments target = [] ∧
      s'.isFinalized target = false ∧
      s'.finalRisks target = FinalRisk.zero ∧
      (∀ o, s'.hasSubmitted target o = false) ∧
      s'.isPending target = false ∧
      target ∉ s'.pendingContracts ∧
      (∀ o score cid time, s'.isOracle o = true → target ≠ 0 → score ≤ 100 →
        ∃ s'', submitAssessment s' o target score cid time = .ok s'') := by
  set sp : ContractState := { s with
      hasSubmitted := fun t o =>
        if t = target ∧ ((s.assessments target).map (fun a => a.oracle)).contains o
        then false else s.hasSubmitted t o
      assessments := fun t => if t = target then [] else s.assessments t
      finalRisks := fun t => if t = target then FinalRisk.zero else s.finalRisks t
      isFinalized := fun t => if t = target then false else s.isFinalized t }
    with hsp
  have hmarker : ∀ o, (removePending sp target).hasSubmitted target o = false := by
    intro o
    rw [removePending_hasSubmitted, hsp]
    by_cases hc : ((s.assessments target).map (fun a => a.oracle)).contains o
    · exact if_pos ⟨rfl, hc⟩
    · dsimp only
      rw [if_neg (fun h => hc h.2)]
      by_cases hbs : s.hasSubmitted target o = true
      · exact absurd (by simpa using hsub o hbs) hc
      · simpa using hbs
  have hfin : (removePending sp target).isFinalized target = false := by
    rw [removePending_isFinalized, hsp]; simp
  refine ⟨removePending sp target, ?_, ?_, hfin, ?_, hmarker, ?_, ?_, ?_⟩
  · unfold adminResetTarget
    rw [if_neg (by simp)]
  · rw [removePending_assessments, hsp]; simp
  · rw [removePending_finalRisks, hsp]; simp
  · exact (removePending_isPending_self _ _).2
  · by_cases hp : sp.isPending target = true
    · have hp' : s.isPending target = true := hp
      unfold removePending
      rw [if_neg (by simp [hp'])]
      exact not_mem_swapRemove_self _ _ (by rw [hsp]; exact hnd)
    · rw [(removePending_isPending_self _ _).1 (by simpa using hp)]
      intro hm
      rw [hsp] at hp hm
      exact hp (hpm hm)
  · intro o score cid time ho ht hsc
    exact submit_succeeds _ o target score cid time ho ht hsc hfin (hmarker o)


/-- Witness for C7 resetting target 500 of the example state. -/
theorem admin_reset_clears_witness :
    ∃ s', adminResetTarget preFinalState preFinalState.owner 500 = .ok s' ∧
      s'.assessments 500 = [] ∧
      s'.isFinalized 500 = false ∧
      s'.finalRisks 500 = FinalRisk.zero ∧
      (∀ o, s'.hasSubmitted 500 o = false) ∧
      s'.isPending 500 = false ∧
      500 ∉ s'.pendingContracts ∧
      (∀ o score cid time, s'.isOracle o = true → 500 ≠ 0 → score ≤ 100 →
        ∃ s'', submitAssessment s' o 500 score cid time = .ok s'') :=
  admin_reset_clears preFinalState 500 (by decide) (by decide)
    (fun o h => Bool.noConfusion h)


/-- C6 counterexample: in the already-finalized example state a
`submitAssessment` call from a non-whitelisted sender fails with the
authorization error, not the state-conflict error "finalized" — so not
EVERY post-finalization submit fails with the state-conflict error. -/
theorem finalized_submit_error_counterexample :
    okMap dangerScenario (false, "") (fun st =>
      (st.isFinalized 500, errOf (submitAssessment st 7 500 50 "" 99)))
      = (true, "Only whitelisted oracle") ∧
    "Only whitelisted oracle" ≠ "finalized" := ⟨by decide, by decide⟩

/-- C6 (amended): once a target is finalized, every `submitAssessment`
call for it fails (with the state-conflict error "finalized" exactly when
the caller is an authorized oracle, the target is non-null and the score
is in range; calls violating an earlier-checked precondition fail with
that precondition's error instead), and no operation other than
`adminResetTarget` ever changes the stored Final Verdict or clears the
finalized flag; at most one verdict per target exists by construction of
the `finalRisks` store. -/
theorem finalized_blocks_submissions (s : ContractState) (target : Nat)
    (hf : s.isFinalized target = true) :
    (∀ sender score cid time, ∃ e,
      submitAssessment s sender target score cid time = .error e) ∧
    (∀ sender score cid time, s.isOracle sender = true → target ≠ 0 →
      score ≤ 100 →
      submitAssessment s sender target score cid time = .error "finalized") ∧
    (∀ x y s', registerOracle s x y = .ok s' →
      s'.finalRisks target = s.finalRisks target ∧ s'.isFinalized target = true) ∧
    (∀ x y s', removeOracle s x y = .ok s' →
      s'.finalRisks target = s.finalRisks target ∧ s'.isFinalized target = true) ∧
    (∀ x a b s', setConsensusParams s x a b = .ok s' →
      s'.finalRisks target = s.finalRisks target ∧ s'.isFinalized target = true) ∧
    (∀ x t s', requestAssessment s x t = .ok s' →
      s'.finalRisks target = s.finalRisks target ∧ s'.isFinalized target = true) ∧
    (∀ x t s', transferOwnership s x t = .ok s' →
      s'.finalRisks target = s.finalRisks target ∧ s'.isFinalized target = true) ∧
    (∀ x t sc cid tm s', submitAssessment s x t sc cid tm = .ok s' →
      s'.finalRisks target = s.finalRisks target ∧ s'.isFinalized target = true) := by
  refine ⟨submit_fails_of_finalized s target hf, ?_, ?_, ?_, ?_, ?_, ?_, ?_⟩
  · intro sender score cid time ho ht hsc
    unfold submitAssessment
    rw [if_neg (by simp [ho]), if_neg ht, if_neg (by simp [hsc]), if_pos hf]
  · intro x y s' hop
    unfold registerOracle at hop
    split_ifs at hop <;>
      first
        | exact Except.noConfusion hop
        | (simp only [Except.ok.injEq] at hop; subst hop; exact ⟨rfl, hf⟩)
  · intro x y s' hop
    unfold removeOracle at hop
    split_ifs at hop <;>
      first
        | exact Except.noConfusion hop
        | (simp only [Except.ok.injEq] at hop; subst hop; exact ⟨rfl, hf⟩)
  · intro x a b s' hop
    unfold setConsensusParams at hop
    split_ifs at hop <;>
      first
        | exact Except.noConfusion hop
        | (simp only [Except.ok.injEq] at hop; subst hop; exact ⟨rfl, hf⟩)
  · intro x t s' hop
    unfold requestAssessment at hop
    split_ifs at hop <;>
      first
        | exact Except.noConfusion hop
        | (simp only [Except.ok.injEq] at hop; subst hop; exact ⟨rfl, hf⟩)
  · intro x t s' hop
    unfold transferOwnership at hop
    split_ifs at hop <;>
      first
        | exact Except.noConfusion hop
        | (simp only [Except.ok.injEq] at hop; subst hop; exact ⟨rfl, hf⟩)
  · intro x t sc cid tm s' hop
    unfold submitAssessment at hop
    dsimp only at hop
    split_ifs at hop with c1 c2 c3 c4 c5 c6
    all_goals try exact Except.noConfusion hop
    all_goals
      have hne : target ≠ t := by
        intro he; rw [← he] at c4; exact c4 (by simp [hf])
    all_goals simp only [Except.ok.injEq] at hop
    all_goals subst hop
    all_goals
      first
        | (rw [tryFinalize_finalRisks_ne _ _ _ _ hne,
             tryFinalize_isFinalized_ne _ _ _ _ hne]
           exact ⟨rfl, hf⟩)
        | exact ⟨rfl, hf⟩


/-- Witness for the amended C6 at the finalized example state. -/
theorem finalized_blocks_submissions_witness :
    (∀ sender score cid time, ∃ e,
      submitAssessment finalState sender 500 score cid time = .error e) ∧
    (∀ sender score cid time, finalState.isOracle sender = true → 500 ≠ 0 →
      score ≤ 100 →
      submitAssessment finalState sender 500 score cid time
        = .error "finalized") ∧
    (∀ x y s', registerOracle finalState x y = .ok s' →
      s'.finalRisks 500 = finalState.finalRisks 500 ∧ s'.isFinalized 500 = true) ∧
    (∀ x y s', removeOracle finalState x y = .ok s' →
      s'.finalRisks 500 = finalState.finalRisks 500 ∧ s'.isFinalized 500 = true) ∧
    (∀ x a b s', setConsensusParams finalState x a b = .ok s' →
      s'.finalRisks 500 = finalState.finalRisks 500 ∧ s'.isFinalized 500 = true) ∧
    (∀ x t s', requestAssessment finalState x t = .ok s' →
      s'.finalRisks 500 = finalState.finalRisks 500 ∧ s'.isFinalized 500 = true) ∧
    (∀ x t s', transferOwnership finalState x t = .ok s' →
      s'.finalRisks 500 = finalState.finalRisks 500 ∧ s'.isFinalized 500 = true) ∧
    (∀ x t sc cid tm s', submitAssessment finalState x t sc cid tm = .ok s' →
      s'.finalRisks 500 = finalState.finalRisks 500 ∧ s'.isFinalized 500 = true) :=
  finalized_blocks_submissions finalState 500 (by decide)


theorem initOracles_params (l : List Nat) (s : ContractState) :
    (initOracles s l).minRequiredSubmissions = s.minRequiredSubmissions ∧
    (initOracles s l).quorumPercent = s.quorumPercent ∧
    (initOracles s l).owner = s.owner := by
  induction l generalizing s with
  | nil => exact ⟨rfl, rfl, rfl⟩
  | cons o rest ih =>
    unfold initOracles
    rw [List.foldl_cons]
    have := ih (if o ≠ 0 ∧ s.isOracle o = false then
      { s with
        isOracle := fun a => if a = o then true else s.isOracle a
        oracleList := s.oracleList ++ [o]
        events := s.events ++ [Event.OracleNodeRegistered o] } else s)
    unfold initOracles at this
    rcases this with ⟨t1, t2, t3⟩
    refine ⟨?_, ?_, ?_⟩
    · rw [t1]; split_ifs <;> rfl
    · rw [t2]; split_ifs <;> rfl
    · rw [t3]; split_ifs <;> rfl
theorem initOracles_registry (l : List Nat) (s : ContractState)
    (hnd : s.oracleList.Nodup) (hz : (0 : Nat) ∉ s.oracleList)
    (hiff : ∀ o, s.isOracle o = true ↔ o ∈ s.oracleList) :
    (initOracles s l).oracleList.Nodup ∧
    (0 : Nat) ∉ (initOracles s l).oracleList ∧
    (∀ o, (initOracles s l).isOracle o = true ↔ o ∈ (initOracles s l).oracleList) := by
  induction l generalizing s with
  | nil => exact ⟨hnd, hz, hiff⟩
  | cons o rest ih =>
    have hcons : initOracles s (o :: rest) =
        initOracles (if o ≠ 0 ∧ s.isOracle o = false then
          { s with
            isOracle := fun a => if a = o then true else s.isOracle a
            oracleList := s.oracleList ++ [o]
            events := s.events ++ [Event.OracleNodeRegistered o] } else s) rest := by
      unfold initOracles
      rw [List.foldl_cons]
    rw [hcons]
    by_cases hc : o ≠ 0 ∧ s.isOracle o = false
    · rw [if_pos hc]
      have hom : o ∉ s.oracleList := fun hm => by
        rw [← hiff o] at hm
        rw [hc.2] at hm
        cases hm
      refine ih _ ?_ ?_ ?_
      · simp [List.nodup_append, hnd, hom]
      · simp only [List.mem_append, List.mem_singleton]
        rintro (h | h)
        · exact hz h
        · exact hc.1 h.symm
      · intro a
        dsimp only
        by_cases ha : a = o
        · subst ha
          simp
        · rw [if_neg ha]
          simp only [List.mem_append, List.mem_singleton, ha, or_false]
          exact hiff a
    · rw [if_neg hc]
      exact ih s hnd hz hiff

theorem deploy_ok_iff (sender : Nat) (l : List Nat) (m q : Nat) :
    (100 < q ∧ 0 < q → deploy sender l m q = .error "quorumPercent max 100") ∧
    (q ≤ 100 → deploy sender l m q = .ok (initOracles
      { owner := sender
        isOracle := fun _ => false
        oracleList := []
        minRequiredSubmissions := if m > 0 then m else 3
        quorumPercent := if q > 0 then q else 66
        hasSubmitted := fun _ _ => false
        assessments := fun _ => []
        finalRisks := fun _ => FinalRisk.zero
        isFinalized := fun _ => false
        pendingContracts := []
        isPending := fun _ => false
        events := [] } l)) := by
  constructor
  · intro ⟨h1, h2⟩
    unfold deploy
    rw [if_pos ⟨h2, by omega⟩]
  · intro h
    unfold deploy
    rw [if_neg (by omega)]
theorem reachable_params (s : ContractState) (h : Reachable s) :
    1 ≤ s.minRequiredSubmissions ∧ 1 ≤ s.quorumPercent ∧
      s.quorumPercent ≤ 100 := by
  induction h with
  | deployed sender l m q s hd =>
    unfold deploy at hd
    by_cases hq : q > 0 ∧ ¬ q ≤ 100
    · rw [if_pos hq] at hd
      exact Except.noConfusion hd
    · rw [if_neg hq] at hd
      simp only [Except.ok.injEq] at hd
      subst hd
      obtain ⟨p1, p2, p3⟩ := initOracles_params l _
      rw [p1, p2]
      dsimp only
      refine ⟨by split_ifs <;> omega, by split_ifs <;> omega, ?_⟩
      split_ifs with h0
      · by_contra hgt
        exact hq ⟨h0, by omega⟩
      · omega
  | registered s s' x y h hop ih =>
    unfold registerOracle at hop
    split_ifs at hop <;>
      first
        | exact Except.noConfusion hop
        | (simp only [Except.ok.injEq] at hop; subst hop; exact ih)
  | removed s s' x y h hop ih =>
    unfold removeOracle at hop
    split_ifs at hop <;>
      first
        | exact Except.noConfusion hop
        | (simp only [Except.ok.injEq] at hop; subst hop; exact ih)
  | paramsSet s s' x a b h hop ih =>
    unfold setConsensusParams at hop
    split_ifs at hop <;>
      first
        | exact Except.noConfusion hop
        | (simp only [Except.ok.injEq] at hop
           subst hop
           simp only [not_not] at *
           refine ⟨by omega, by omega, by omega⟩)
  | requested s s' x t h hop ih =>
    unfold requestAssessment at hop
    split_ifs at hop <;>
      first
        | exact Except.noConfusion hop
        | (simp only [Except.ok.injEq] at hop; subst hop; exact ih)
  | submitted s s' x t sc cid tm h hop ih =>
    unfold submitAssessment at hop
    dsimp only at hop
    split_ifs at hop <;>
      first
        | exact Except.noConfusion hop
        | (simp only [Except.ok.injEq] at hop
           subst hop
           first
             | exact ih
             | (obtain ⟨q1, q2⟩ := tryFinalize_params _ t tm
                rw [q1, q2]
                exact ih))
  | reset s s' x t h hop ih =>
    unfold adminResetTarget at hop
    dsimp only at hop
    split_ifs at hop <;>
      first
        | exact Except.noConfusion hop
        | (simp only [Except.ok.injEq] at hop
           subst hop
           obtain ⟨r1, r2⟩ := removePending_params _ t
           rw [r1, r2]
           exact ih)
  | transferred s s' x t h hop ih =>
    unfold transferOwnership at hop
    split_ifs at hop <;>
      first
        | exact Except.noConfusion hop
        | (simp only [Except.ok.injEq] at hop; subst hop; exact ih)
/-- C10: the constructor does not enforce the `setConsensusParams`
bounds: `_minRequiredSubmissions = 0` succeeds and silently keeps the
default 3, `_quorumPercent = 0` succeeds and silently keeps the default
66, only `_quorumPercent > 100` is rejected, zero and duplicate
addresses in `initialOracles` are silently skipped, and nevertheless
`minRequiredSubmissions ≥ 1` and `quorumPercent ∈ [1,100]` hold in every
reachable state. -/
theorem constructor_defaults (sender m q : Nat) (l : List Nat) (s : ContractState) :
    (q ≤ 100 → ∃ s0, deploy sender l 0 q = .ok s0 ∧
      s0.minRequiredSubmissions = 3) ∧
    (∃ s1, deploy sender l m 0 = .ok s1 ∧ s1.quorumPercent = 66) ∧
    (100 < q → deploy sender l m q = .error "quorumPercent max 100") ∧
    (q ≤ 100 → ∃ s2, deploy sender l m q = .ok s2) ∧
    (deploy sender l m q = .ok s →
      s.oracleList.Nodup ∧ (0 : Nat) ∉ s.oracleList ∧
      (∀ o, s.isOracle o = true ↔ o ∈ s.oracleList)) ∧
    (Reachable s → 1 ≤ s.minRequiredSubmissions ∧ 1 ≤ s.quorumPercent ∧
      s.quorumPercent ≤ 100) := by
  refine ⟨?_, ?_, ?_, ?_, ?_, reachable_params s⟩
  · intro hq
    refine ⟨_, (deploy_ok_iff sender l 0 q).2 hq, ?_⟩
    obtain ⟨p1, -, -⟩ := initOracles_params l _
    rw [p1]
    rfl
  · refine ⟨_, (deploy_ok_iff sender l m 0).2 (by omega), ?_⟩
    obtain ⟨-, p2, -⟩ := initOracles_params l _
    rw [p2]
    rfl
  · intro hq
    exact (deploy_ok_iff sender l m q).1 ⟨hq, by omega⟩
  · intro hq
    exact ⟨_, (deploy_ok_iff sender l m q).2 hq⟩
  · intro hd
    by_cases hq : q > 0 ∧ ¬ q ≤ 100
    · unfold deploy at hd
      rw [if_pos hq] at hd
      exact Except.noConfusion hd
    · unfold deploy at hd
      rw [if_neg hq] at hd
      simp only [Except.ok.injEq] at hd
      subst hd
      exact initOracles_registry l _ (by simp) (by simp) (by intro o; simp)

/-- Witness for C10 at concrete deployments. -/
theorem constructor_defaults_witness :
    (∃ s0, deploy 100 [] 0 66 = .ok s0 ∧ s0.minRequiredSubmissions = 3) ∧
    (∃ s1, deploy 100 [] 0 0 = .ok s1 ∧ s1.quorumPercent = 66) ∧
    (deploy 100 [] 0 101 = .error "quorumPercent max 100") ∧
    (∃ s2, deploy 100 [] 0 66 = .ok s2) ∧
    (baseState.oracleList.Nodup ∧ (0 : Nat) ∉ baseState.oracleList ∧
      (∀ o, baseState.isOracle o = true ↔ o ∈ baseState.oracleList)) ∧
    (1 ≤ baseState.minRequiredSubmissions ∧ 1 ≤ baseState.quorumPercent ∧
      baseState.quorumPercent ≤ 100) := by
  have h1 := constructor_defaults 100 0 66 [] baseState
  have h2 := constructor_defaults 100 0 101 [] baseState
  have h3 := constructor_defaults 100 0 0 [] baseState
  exact ⟨h1.1 (by omega), h3.2.1, h2.2.2.1 (by omega),
    h1.2.2.2.1 (by omega),
    h1.2.2.2.2.1 (by rfl),
    h1.2.2.2.2.2 (Reachable.deployed 100 [] 0 66 baseState (by rfl))⟩

end Synergix
